import Mathlib

/-!
Verification of the continuous-line TSP solver (graph construction and
subtour-elimination loop) of the `puzzles` repository.

The shallow embedding below follows the source files
`5_continuous_line/continuous_line_tsp_dfj_calling_pulp.py`,
`continuous_line_tsp_dfj_calling_grb.py`, `continuous_line_tsp_dfj_grb.py`
and `continuous_line_tsp_dfj_grb_2.py`.  Cells are `(row, col)` pairs of
naturals, the dummy node carries cell `(0, 0)` (the scripts only ever
compare it by equality), arcs are ordered pairs of cells, and a candidate
solution is a boolean assignment on arcs.  The iterative scripts' `while`
loops are embedded with an explicit fuel argument; the termination theorems
show that fuel equal to the node count suffices.
-/

namespace ContinuousLine

/-- A grid cell `(row, col)`.  Real cells have both coordinates ≥ 1. -/
abbrev Cell := Nat × Nat

/-- An arc is an ordered `(origin, destination)` pair of cells. -/
abbrev Arc := Cell × Cell

/-- `dummy_node = Node(Cell(0, 0))` in the source scripts. -/
def dummy_node : Cell := (0, 0)

/-- Node creation (`calling_pulp.py` lines 72-78): for `i` in `1..num_rows`,
for `j` in `1..num_cols`, append `(i, j)` unless it is a hole; the dummy
node is appended last. -/
def createNodes (numRows numCols : Nat) (H : List Cell) : List Cell :=
  (((List.range numRows).map (· + 1)).flatMap (fun i =>
    ((List.range numCols).map (· + 1)).filterMap (fun j =>
      if (i, j) ∈ H then none else some (i, j)))) ++ [dummy_node]

/-- Arc-creation condition (`calling_pulp.py` lines 86-88):
`bool(origin == dummy_node) != bool(destination == dummy_node)` or the
puzzle cells connection rule (same row and column distance 1, or same
column and row distance 1). -/
def arcCond (o d : Cell) : Bool :=
  (decide (o = dummy_node) != decide (d = dummy_node)) ||
  (decide (o.1 = d.1) && decide (((o.2 : Int) - (d.2 : Int)).natAbs = 1)) ||
  (decide (o.2 = d.2) && decide (((o.1 : Int) - (d.1 : Int)).natAbs = 1))

/-- Arc creation (`calling_pulp.py` lines 81-91): for every origin in node
order, for every destination in node order, append `(origin, destination)`
when `arcCond` holds. -/
def createArcs (N : List Cell) : List Arc :=
  N.flatMap (fun o => N.filterMap (fun d =>
    if arcCond o d then some (o, d) else none))

/-- `node.ongoing_arcs`: the arcs of `A` leaving `node`, in `A`'s order
(the scripts build these lists incrementally while creating `A`, which
yields exactly the order-preserving filter of `A`). -/
def ongoingArcs (A : List Arc) (v : Cell) : List Arc :=
  A.filter (fun a => decide (a.1 = v))

/-- `node.incoming_arcs`: the arcs of `A` entering `node`, in `A`'s order. -/
def incomingArcs (A : List Arc) (v : Cell) : List Arc :=
  A.filter (fun a => decide (a.2 = v))

/-- The degree constraints (`calling_pulp.py` lines 101-105) hold for an
assignment: for every node, exactly one outgoing and exactly one incoming
arc is selected. -/
def degreeOK (N : List Cell) (A : List Arc) (x : Arc → Bool) : Prop :=
  ∀ v ∈ N, (ongoingArcs A v).countP x = 1 ∧ (incomingArcs A v).countP x = 1

instance (N : List Cell) (A : List Arc) (x : Arc → Bool) :
    Decidable (degreeOK N A x) := by
  unfold degreeOK; infer_instance

/-- The list of degree constraints registered by the model
(`calling_pulp.py` lines 101-105): per node, the pair of constraints
"sum of selected outgoing arcs = 1" and "sum of selected incoming arcs
= 1", each recorded as (arc list, right-hand side). -/
def degreeConstraintList (N : List Cell) (A : List Arc) : List (List Arc × Nat) :=
  N.flatMap (fun v => [(ongoingArcs A v, 1), (incomingArcs A v, 1)])

/-- Lookup in the successor dictionary
`sol = {a[0]: a[1] for a in A if x[a].value() == 1}`
(`calling_pulp.py` line 112).  Later insertions overwrite earlier ones, so
the value at key `v` is the destination of the last selected arc leaving
`v`; a missing key gives `none` (a `KeyError` in Python). -/
def solLookup (A : List Arc) (x : Arc → Bool) (v : Cell) : Option Cell :=
  (((ongoingArcs A v).filter x).getLast?).map Prod.snd

/-- The total successor function: `solLookup` with the (never hit under
the degree constraints) missing-key case mapped to the identity. -/
def solFun (A : List Arc) (x : Arc → Bool) (v : Cell) : Cell :=
  (solLookup A x v).getD v

/-- The linear scan `for a in A: if x[a].value() == 1: init = a[0]`
(`calling_pulp.py` lines 113-116): the origin of the last selected arc. -/
def lastSelectedOrigin (A : List Arc) (x : Arc → Bool) : Option Cell :=
  A.foldl (fun acc a => if x a then some a.1 else acc) none

/-- The `while next != dummy_node` walk of `subtour`
(`calling_pulp.py` lines 117-123), with explicit fuel; `none` models
either fuel exhaustion or a `KeyError` on a missing successor. -/
def walkLoop (sol : Cell → Option Cell) : Nat → Cell → List Arc → Option (List Arc)
  | 0, next, acc => if next = dummy_node then some acc else none
  | fuel + 1, next, acc =>
      if next = dummy_node then some acc
      else
        match sol next with
        | none => none
        | some n2 => walkLoop sol fuel n2 (acc ++ [(next, n2)])

/-- The `subtour` routine of the iterative variants
(`calling_pulp.py` lines 111-125, `calling_grb.py` lines 112-126): find the
origin of the last selected arc, walk successors until the dummy node is
reached, then close the cycle with the wrap-around arc.  `none` models the
runtime errors of the script (missing key, empty cycle list). -/
def subtourIt (A : List Arc) (x : Arc → Bool) (fuel : Nat) : Option (List Arc) :=
  match lastSelectedOrigin A x with
  | none => none
  | some start =>
      match solLookup A x start with
      | none => none
      | some next0 =>
          match walkLoop (solLookup A x) fuel next0 [] with
          | none => none
          | some arcCycle =>
              match arcCycle with
              | [] => none
              | a0 :: rest =>
                  some ((a0 :: rest) ++
                    [(((a0 :: rest).getLast (List.cons_ne_nil a0 rest)).2, a0.1)])

/-- `itertools.permutations(nodes, 2)`: all ordered pairs of entries at
distinct positions, first index ascending, second index ascending over the
remaining positions. -/
def pairsPerm (nodes : List Cell) : List Arc :=
  (List.range nodes.length).flatMap (fun i =>
    ((List.range nodes.length).filter (fun j => decide (j ≠ i))).map
      (fun j => (nodes.getD i dummy_node, nodes.getD j dummy_node)))

/-- The node sets cut in one iteration of the elimination loop
(`calling_pulp.py` lines 138-146): the loop body computes
`tour = subtour(mdl)` and adds one constraint over `nodes = [a[0] for a in
tour]` exactly when `n > len(tour) > 1`. -/
def cutNodesIter (N : List Cell) (A : List Arc) (x : Arc → Bool) : List (List Cell) :=
  match subtourIt A x N.length with
  | none => []
  | some tour =>
      if N.length > tour.length ∧ 1 < tour.length then [tour.map Prod.fst] else []

/-- The elimination constraint emitted by one iteration of
`calling_pulp.py` (line 144): left-hand side
`sum(x[(i,j)] for i, j in permutations(nodes, 2) if (i, j) in A)`,
right-hand side `len(tour) - 1`; recorded as (arc list, rhs). -/
def cutConstraintIter (N : List Cell) (A : List Arc) (x : Arc → Bool) :
    Option (List Arc × Nat) :=
  match subtourIt A x N.length with
  | none => none
  | some tour =>
      if N.length > tour.length ∧ 1 < tour.length then
        some ((pairsPerm (tour.map Prod.fst)).filter (fun p => decide (p ∈ A)),
          tour.length - 1)
      else none

/-- `[j for i, j in edges.select(current, '*') if j in unvisited]`
(`grb.py` lines 142-143). -/
def selectSuccs (edges : List (Nat × Nat)) (current : Nat) (unvisited : List Nat) :
    List Nat :=
  ((edges.filter (fun e => decide (e.1 = current))).map Prod.snd).filter
    (fun j => decide (j ∈ unvisited))

/-- The inner `while neighbors` loop of `grb.py`'s `subtour`
(lines 138-143), with explicit fuel: repeatedly take the head of
`neighbors` as `current`, record it, remove it from `unvisited`, and
recompute `neighbors`. -/
def subtourInner (edges : List (Nat × Nat)) :
    Nat → List Nat → List Nat → List Nat → List Nat × List Nat
  | 0, _, unvisited, thiscycle => (thiscycle, unvisited)
  | fuel + 1, neighbors, unvisited, thiscycle =>
      match neighbors with
      | [] => (thiscycle, unvisited)
      | current :: _ =>
          let unv2 := unvisited.erase current
          subtourInner edges fuel (selectSuccs edges current unv2) unv2
            (thiscycle ++ [current])

/-- The outer `while unvisited` loop of `grb.py`'s `subtour`
(lines 135-145): run the inner loop starting from the head of `unvisited`
(`neighbors = unvisited` aliases the list at entry) and keep the shortest
cycle found. -/
def subtourOuter (edges : List (Nat × Nat)) :
    Nat → List Nat → List Nat → List Nat
  | 0, _, cycle => cycle
  | fuel + 1, unvisited, cycle =>
      match unvisited with
      | [] => cycle
      | _ :: _ =>
          let p := subtourInner edges unvisited.length unvisited unvisited []
          subtourOuter edges fuel p.2 (if cycle.length > p.1.length then p.1 else cycle)

/-- Conversion of the kept cycle to an arc list (`grb.py` lines 146-150). -/
def toArcList (cycle : List Nat) : List (Nat × Nat) :=
  match cycle with
  | [] => []
  | c0 :: _ =>
      ((List.range (cycle.length - 1)).map
        (fun i => (cycle.getD i 0, cycle.getD (i + 1) 0))) ++
      [(cycle.getD (cycle.length - 1) 0, c0)]

/-- `grb.py`'s `subtour` (lines 132-150) over integer node labels
`0..n-1`: decompose and return the shortest cycle as an arc list. -/
def subtourCb (n : Nat) (edges : List (Nat × Nat)) : List (Nat × Nat) :=
  toArcList (subtourOuter edges n (List.range n) (List.range (n + 1)))

/-- The lazy constraint emission of `subtourelim` (`grb.py` lines 117-127):
when `n > len(tour) > 1`, line 127 would add a constraint over the tour's
own arcs with right-hand side `len(tour) - 1`.  Note the call-site type
mismatch in the script: `selected` holds `(Node, Node)` object pairs
(`model._vars.keys()`), while `subtour` scans integer labels `0..n-1`, so
`edges.select(current, '*')` never matches; this is modelled by evaluating
the function at edge lists none of whose origins equals an integer label
below `n` (hypothesis `∀ e ∈ edges, n ≤ e.1` in the theorems). -/
def subtourelimCut (n : Nat) (edges : List (Nat × Nat)) :
    Option (List (Nat × Nat) × Nat) :=
  let tour := subtourCb n edges
  if n > tour.length ∧ 1 < tour.length then some (tour, tour.length - 1) else none

/-- Modelled from the spec (§3): two real cells are grid-adjacent when they
share a row and their columns differ by 1, or share a column and their rows
differ by 1. -/
def gridAdjacent (o d : Cell) : Prop :=
  (o.1 = d.1 ∧ ((o.2 : Int) - (d.2 : Int)).natAbs = 1) ∨
  (o.2 = d.2 ∧ ((o.1 : Int) - (d.1 : Int)).natAbs = 1)

/-- Modelled from the spec (§3 Arc, claim C5): an arc is created when
exactly one of the pair is the dummy node, or both are real (non-dummy)
nodes whose cells are grid-adjacent.  Stated in the spec's words for
comparison with the source condition `arcCond`. -/
def specArcRule (o d : Cell) : Prop :=
  (o = dummy_node ∧ d ≠ dummy_node) ∨
  (d = dummy_node ∧ o ≠ dummy_node) ∨
  (o ≠ dummy_node ∧ d ≠ dummy_node ∧ gridAdjacent o d)

/-- Modelled from the spec (§4.1): the row-major enumeration of all grid
cells, used to state the enumeration-order claim C8. -/
def cellsRowMajor (numRows numCols : Nat) : List Cell :=
  ((List.range numRows).map (· + 1)).flatMap (fun i =>
    ((List.range numCols).map (· + 1)).map (fun j => (i, j)))

/-- Concrete 2×2 instance: node list of the hole-free 2×2 grid. -/
def N22 : List Cell := createNodes 2 2 []

/-- Concrete 2×2 instance: its arc list. -/
def A22 : List Arc := createArcs N22

/-- A concrete degree-feasible candidate solution on the 2×2 grid whose
selected arcs decompose into two cycles: the dummy node's cycle
`(0,0) → (1,1) → (1,2) → (0,0)` and the subtour `(2,1) ↔ (2,2)`. -/
def sel22 : List Arc :=
  [((0,0),(1,1)), ((1,1),(1,2)), ((1,2),(0,0)), ((2,1),(2,2)), ((2,2),(2,1))]

/-- The boolean assignment selecting exactly the arcs of `sel22`. -/
def x22 : Arc → Bool := fun a => decide (a ∈ sel22)

/-! ### Basic facts about arc creation -/

/-- No cell satisfies the arc-creation condition with itself. -/
theorem arcCond_irrefl (v : Cell) : arcCond v v = false := by
  simp [arcCond]

/-- Membership in the created arc list. -/
theorem mem_createArcs {N : List Cell} {a : Arc} :
    a ∈ createArcs N ↔ a.1 ∈ N ∧ a.2 ∈ N ∧ arcCond a.1 a.2 = true := by
  obtain ⟨o, d⟩ := a
  simp only [createArcs, List.mem_flatMap, List.mem_filterMap,
    Option.ite_none_right_eq_some, Option.some.injEq, Prod.mk.injEq]
  constructor
  · rintro ⟨o', ho', d', hd', hc, rfl, rfl⟩
    exact ⟨ho', hd', hc⟩
  · rintro ⟨ho, hd, hc⟩
    exact ⟨o, ho, d, hd, hc, rfl, rfl⟩

/-- Created arcs never connect a node to itself. -/
theorem createArcs_ne_self {N : List Cell} {a : Arc} (h : a ∈ createArcs N) :
    a.1 ≠ a.2 := by
  intro he
  have hc := (mem_createArcs.mp h).2.2
  rw [he, arcCond_irrefl] at hc
  exact Bool.false_ne_true hc

/-! ### Structure of the created node list -/

theorem filter_flatMap_eq {α β : Type} (l : List α) (f : α → List β) (p : β → Bool) :
    (l.flatMap f).filter p = l.flatMap (fun a => (f a).filter p) := by
  induction l with
  | nil => rfl
  | cons a l ih => simp only [List.flatMap_cons, List.filter_append, ih]

theorem row_filterMap_eq (i : Nat) (H : List Cell) (l : List Nat) :
    l.filterMap (fun j => if (i, j) ∈ H then none else some (i, j)) =
      (l.map (fun j => (i, j))).filter (fun c => decide (¬ c ∈ H)) := by
  induction l with
  | nil => rfl
  | cons j l ih =>
      by_cases h : (i, j) ∈ H <;>
        simp [List.filterMap_cons, List.filter_cons, h, ih]

/-- The created node list is exactly the row-major cell enumeration with
holes filtered out, followed by the dummy node. -/
theorem createNodes_eq (R C : Nat) (H : List Cell) :
    createNodes R C H =
      (cellsRowMajor R C).filter (fun c => decide (¬ c ∈ H)) ++ [dummy_node] := by
  unfold createNodes cellsRowMajor
  rw [filter_flatMap_eq]
  simp only [row_filterMap_eq]

theorem mem_cellsRowMajor {R C : Nat} {c : Cell} :
    c ∈ cellsRowMajor R C ↔ 1 ≤ c.1 ∧ c.1 ≤ R ∧ 1 ≤ c.2 ∧ c.2 ≤ C := by
  obtain ⟨i, j⟩ := c
  simp only [cellsRowMajor, List.mem_flatMap, List.mem_map, List.mem_range]
  constructor
  · rintro ⟨a, ⟨b, hb, rfl⟩, a2, ⟨b2, hb2, rfl⟩, heq⟩
    simp only [Prod.mk.injEq] at heq
    omega
  · rintro ⟨h1, h2, h3, h4⟩
    exact ⟨i, ⟨i - 1, by omega, by omega⟩, j, ⟨j - 1, by omega, by omega⟩, rfl⟩

theorem cellsRowMajor_nodup (R C : Nat) : (cellsRowMajor R C).Nodup := by
  induction R with
  | zero => simp [cellsRowMajor]
  | succ R ih =>
      have hsplit : cellsRowMajor (R + 1) C =
          cellsRowMajor R C ++
            ((List.range C).map (· + 1)).map (fun j => (R + 1, j)) := by
        unfold cellsRowMajor
        rw [List.range_succ, List.map_append, List.flatMap_append]
        simp
      rw [hsplit, List.nodup_append]
      refine ⟨ih, ?_, ?_⟩
      · refine List.Nodup.map_on ?_ ?_
        · intro x _ y _ h
          simpa using h
        · exact (List.nodup_range C).map (fun a b h => by omega)
      · intro c hc1 hc2
        have h1 := (mem_cellsRowMajor.mp hc1).2.1
        obtain ⟨j, _, rfl⟩ := List.mem_map.mp hc2
        dsimp only at h1
        omega

theorem dummy_notMem_filtered {R C : Nat} {p : Cell → Bool} :
    dummy_node ∉ (cellsRowMajor R C).filter p := by
  intro h
  have := (mem_cellsRowMajor.mp (List.mem_of_mem_filter h)).1
  simp [dummy_node] at this

theorem createNodes_nodup (R C : Nat) (H : List Cell) :
    (createNodes R C H).Nodup := by
  rw [createNodes_eq, List.nodup_append]
  refine ⟨(cellsRowMajor_nodup R C).filter _, List.nodup_singleton _, ?_⟩
  intro c hc1 hc2
  rw [List.mem_singleton] at hc2
  subst hc2
  exact dummy_notMem_filtered hc1

theorem mem_createNodes {R C : Nat} {H : List Cell} {c : Cell} :
    c ∈ createNodes R C H ↔
      (1 ≤ c.1 ∧ c.1 ≤ R ∧ 1 ≤ c.2 ∧ c.2 ≤ C ∧ c ∉ H) ∨ c = dummy_node := by
  rw [createNodes_eq]
  simp only [List.mem_append, List.mem_filter, List.mem_singleton,
    mem_cellsRowMajor, decide_eq_true_eq]
  tauto

theorem dummy_mem_createNodes (R C : Nat) (H : List Cell) :
    dummy_node ∈ createNodes R C H := by
  rw [mem_createNodes]; right; rfl

/-! ### The successor function of a degree-feasible candidate solution -/

theorem mem_ongoingArcs {A : List Arc} {v : Cell} {a : Arc} :
    a ∈ ongoingArcs A v ↔ a ∈ A ∧ a.1 = v := by
  simp [ongoingArcs, List.mem_filter]

theorem mem_incomingArcs {A : List Arc} {v : Cell} {a : Arc} :
    a ∈ incomingArcs A v ↔ a ∈ A ∧ a.2 = v := by
  simp [incomingArcs, List.mem_filter]

theorem selected_eq_of_filter_singleton {l : List Arc} {x : Arc → Bool} {a b : Arc}
    (h : l.filter x = [a]) (hb : b ∈ l) (hbx : x b = true) : b = a := by
  have hm : b ∈ l.filter x := List.mem_filter.mpr ⟨hb, hbx⟩
  rw [h, List.mem_singleton] at hm
  exact hm

theorem ongoing_filter_singleton {A : List Arc} {x : Arc → Bool} {v : Cell}
    (h : (ongoingArcs A v).countP x = 1) :
    ∃ a, (ongoingArcs A v).filter x = [a] := by
  rw [List.countP_eq_length_filter] at h
  exact List.length_eq_one.mp h

theorem solLookup_spec {A : List Arc} {x : Arc → Bool} {v : Cell}
    (h : (ongoingArcs A v).countP x = 1) :
    ∃ w, solLookup A x v = some w ∧ (v, w) ∈ A ∧ x (v, w) = true := by
  obtain ⟨a, ha⟩ := ongoing_filter_singleton h
  have hmem : a ∈ (ongoingArcs A v).filter x := by
    rw [ha]; exact List.mem_singleton_self a
  have h1 := mem_ongoingArcs.mp (List.mem_of_mem_filter hmem)
  have hx : x a = true := List.of_mem_filter hmem
  obtain ⟨a1, a2⟩ := a
  obtain ⟨hmemA, h1v⟩ := h1
  dsimp at h1v
  subst h1v
  exact ⟨a2, by rw [solLookup, ha]; rfl, hmemA, hx⟩

/-- Bundle of facts about the successor of a node under a degree-feasible
assignment on the created arcs. -/
theorem solFun_spec {N : List Cell} {x : Arc → Bool}
    (hdeg : degreeOK N (createArcs N) x) {v : Cell} (hv : v ∈ N) :
    solLookup (createArcs N) x v = some (solFun (createArcs N) x v) ∧
    (v, solFun (createArcs N) x v) ∈ createArcs N ∧
    x (v, solFun (createArcs N) x v) = true ∧
    solFun (createArcs N) x v ∈ N ∧
    solFun (createArcs N) x v ≠ v := by
  obtain ⟨w, hw, hwA, hwx⟩ := solLookup_spec (hdeg v hv).1
  have hF : solFun (createArcs N) x v = w := by rw [solFun, hw]; rfl
  rw [hF]
  refine ⟨hw, hwA, hwx, (mem_createArcs.mp hwA).2.1, ?_⟩
  intro he
  exact createArcs_ne_self hwA (by simpa using he.symm)

theorem incoming_filter_singleton {A : List Arc} {x : Arc → Bool} {v : Cell}
    (h : (incomingArcs A v).countP x = 1) :
    ∃ a, (incomingArcs A v).filter x = [a] := by
  rw [List.countP_eq_length_filter] at h
  exact List.length_eq_one.mp h

theorem solFun_eq_self_of_notMem {N : List Cell} {x : Arc → Bool} {v : Cell}
    (hv : v ∉ N) : solFun (createArcs N) x v = v := by
  have hnil : ongoingArcs (createArcs N) v = [] := by
    unfold ongoingArcs
    rw [List.filter_eq_nil_iff]
    intro a ha
    simp only [decide_eq_true_eq]
    intro h1
    exact hv (h1 ▸ (mem_createArcs.mp ha).1)
  rw [solFun, solLookup, hnil]
  rfl

/-- Under the degree constraints the successor function is (globally)
injective: inside `N` by the incoming-degree constraint, outside `N`
because it is the identity there. -/
theorem solFun_injective {N : List Cell} {x : Arc → Bool}
    (hdeg : degreeOK N (createArcs N) x) :
    Function.Injective (solFun (createArcs N) x) := by
  intro u v huv
  by_cases hu : u ∈ N <;> by_cases hv : v ∈ N
  · obtain ⟨-, huA, hux, hwN, -⟩ := solFun_spec hdeg hu
    obtain ⟨-, hvA, hvx, -, -⟩ := solFun_spec hdeg hv
    rw [← huv] at hvA hvx
    obtain ⟨a, ha⟩ := incoming_filter_singleton
      (hdeg (solFun (createArcs N) x u) hwN).2
    have h1 : (u, solFun (createArcs N) x u) = a :=
      selected_eq_of_filter_singleton ha (mem_incomingArcs.mpr ⟨huA, rfl⟩) hux
    have h2 : (v, solFun (createArcs N) x u) = a :=
      selected_eq_of_filter_singleton ha (mem_incomingArcs.mpr ⟨hvA, rfl⟩) hvx
    have h3 := h1.trans h2.symm
    simpa using congrArg Prod.fst h3
  · exfalso
    have h1 := (solFun_spec hdeg hu).2.2.2.1
    rw [huv, solFun_eq_self_of_notMem hv] at h1
    exact hv h1
  · exfalso
    have h1 := (solFun_spec hdeg hv).2.2.2.1
    rw [← huv, solFun_eq_self_of_notMem hu] at h1
    exact hu h1
  · rw [solFun_eq_self_of_notMem hu, solFun_eq_self_of_notMem hv] at huv
    exact huv

theorem iterate_solFun_mem {N : List Cell} {x : Arc → Bool}
    (hdeg : degreeOK N (createArcs N) x) (hdm : dummy_node ∈ N) (i : Nat) :
    (solFun (createArcs N) x)^[i] dummy_node ∈ N := by
  induction i with
  | zero => exact hdm
  | succ i ih =>
      rw [Function.iterate_succ_apply']
      exact (solFun_spec hdeg ih).2.2.2.1

/-- Pigeonhole: the dummy node's orbit returns to the dummy node within
`N.length` steps. -/
theorem exists_orbit_return {N : List Cell} {x : Arc → Bool}
    (hdeg : degreeOK N (createArcs N) x) (hdm : dummy_node ∈ N)
    (hnd : N.Nodup) :
    ∃ k, 0 < k ∧ k ≤ N.length ∧
      (solFun (createArcs N) x)^[k] dummy_node = dummy_node := by
  classical
  set F := solFun (createArcs N) x with hF
  have hmaps : ∀ i ∈ (Finset.univ : Finset (Fin (N.length + 1))),
      F^[(i : Nat)] dummy_node ∈ N.toFinset := by
    intro i _
    rw [List.mem_toFinset]
    exact iterate_solFun_mem hdeg hdm i
  have hcard : N.toFinset.card < (Finset.univ : Finset (Fin (N.length + 1))).card := by
    rw [Finset.card_univ, Fintype.card_fin, List.toFinset_card_of_nodup hnd]
    omega
  obtain ⟨i, -, j, -, hij, hEq⟩ :=
    Finset.exists_ne_map_eq_of_card_lt_of_maps_to hcard hmaps
  rcases Nat.lt_or_ge (i : Nat) (j : Nat) with hlt | hge
  · refine ⟨(j : Nat) - (i : Nat), by omega, by omega, ?_⟩
    have hinj := (solFun_injective hdeg).iterate (i : Nat)
    apply hinj
    rw [← Function.iterate_add_apply]
    have : (i : Nat) + ((j : Nat) - (i : Nat)) = (j : Nat) := by omega
    rw [this]
    exact hEq.symm
  · have hlt2 : (j : Nat) < (i : Nat) := by
      rcases Nat.lt_or_ge (j : Nat) (i : Nat) with h | h
      · exact h
      · exact absurd (Fin.ext (by omega)) hij
    refine ⟨(i : Nat) - (j : Nat), by omega, by omega, ?_⟩
    have hinj := (solFun_injective hdeg).iterate (j : Nat)
    apply hinj
    rw [← Function.iterate_add_apply]
    have : (j : Nat) + ((i : Nat) - (j : Nat)) = (i : Nat) := by omega
    rw [this]
    exact hEq

/-! ### The walk of `subtour` along the dummy node's cycle -/

theorem map_range_getLast {α : Type} (f : Nat → α) {m : Nat} (hm : 0 < m)
    (hne : (List.range m).map f ≠ []) :
    ((List.range m).map f).getLast hne = f (m - 1) := by
  rw [List.getLast_eq_getElem]
  simp only [List.length_map, List.length_range]
  rw [List.getElem_map]
  congr 1
  exact List.getElem_range _ _

theorem map_range_head {α : Type} (f : Nat → α) {m : Nat} (hm : 0 < m)
    (hne : (List.range m).map f ≠ []) :
    ((List.range m).map f).head hne = f 0 := by
  rw [List.head_eq_getElem]
  rw [List.getElem_map]
  congr 1
  exact List.getElem_range _ _

theorem map_range_succ_cons {α : Type} (f : Nat → α) (t : Nat) :
    (List.range (t + 1)).map f = f 0 :: (List.range t).map (fun i => f (i + 1)) := by
  rw [List.range_succ_eq_map, List.map_cons, List.map_map]
  rfl

/-- The `while` loop of `subtour`, entered at the `j`-th iterate of the
successor function, consumes the remaining `k - j` steps of the dummy
node's cycle and records one arc per step. -/
theorem walkLoop_orbit (sol : Cell → Option Cell) (F : Cell → Cell)
    (hsol : ∀ i : Nat, sol (F^[i] dummy_node) = some (F^[i + 1] dummy_node))
    {k : Nat} (hk : F^[k] dummy_node = dummy_node)
    (hmin : ∀ j, 0 < j → j < k → F^[j] dummy_node ≠ dummy_node) :
    ∀ t j fuel acc, j + t = k → 1 ≤ j → t ≤ fuel →
      walkLoop sol fuel (F^[j] dummy_node) acc =
        some (acc ++ (List.range t).map (fun i =>
          (F^[j + i] dummy_node, F^[j + i + 1] dummy_node))) := by
  intro t
  induction t with
  | zero =>
      intro j fuel acc hjt hj hf
      have hj' : j = k := by omega
      subst hj'
      cases fuel <;> simp [walkLoop, hk]
  | succ t ih =>
      intro j fuel acc hjt hj hf
      obtain ⟨fu, rfl⟩ : ∃ fu, fuel = fu + 1 := ⟨fuel - 1, by omega⟩
      have hne : F^[j] dummy_node ≠ dummy_node := hmin j (by omega) (by omega)
      rw [walkLoop, if_neg hne, hsol j]
      dsimp only
      rw [ih (j + 1) fu (acc ++ [(F^[j] dummy_node, F^[j + 1] dummy_node)])
        (by omega) (by omega) (by omega)]
      have htail : (List.range t).map (fun i =>
            (F^[j + 1 + i] dummy_node, F^[j + 1 + i + 1] dummy_node)) =
          (List.range t).map (fun i =>
            (F^[j + (i + 1)] dummy_node, F^[j + (i + 1) + 1] dummy_node)) := by
        apply List.map_congr_left
        intro i _
        have e1 : j + 1 + i = j + (i + 1) := by omega
        rw [e1]
      rw [htail, map_range_succ_cons, List.append_assoc, List.singleton_append]
      rfl

/-- Assembly of `subtour` from its parts. -/
theorem subtourIt_parts {A : List Arc} {x : Arc → Bool} {fuel : Nat}
    {s n0 : Cell} {l : List Arc} (h1 : lastSelectedOrigin A x = some s)
    (h2 : solLookup A x s = some n0)
    (h3 : walkLoop (solLookup A x) fuel n0 [] = some l) (h4 : l ≠ []) :
    subtourIt A x fuel = some (l ++ [((l.getLast h4).2, (l.head h4).1)]) := by
  unfold subtourIt
  rw [h1]
  dsimp only
  rw [h2]
  dsimp only
  rw [h3]
  obtain ⟨a0, rest, rfl⟩ : ∃ a0 rest, l = a0 :: rest := by
    cases l with
    | nil => exact absurd rfl h4
    | cons a r => exact ⟨a, r, rfl⟩
  rfl

/-! ### The linear scan ends at the dummy node -/

theorem createArcs_append_last (Ns : List Cell) :
    createArcs (Ns ++ [dummy_node]) =
      Ns.flatMap (fun o => (Ns ++ [dummy_node]).filterMap (fun d =>
        if arcCond o d then some (o, d) else none)) ++
      (Ns ++ [dummy_node]).filterMap (fun d =>
        if arcCond dummy_node d then some (dummy_node, d) else none) := by
  unfold createArcs
  rw [List.flatMap_append]
  simp

theorem mem_block_fst {N : List Cell} {o : Cell} {a : Arc}
    (h : a ∈ N.filterMap (fun d => if arcCond o d then some (o, d) else none)) :
    a.1 = o := by
  obtain ⟨d, -, hd⟩ := List.mem_filterMap.mp h
  rw [Option.ite_none_right_eq_some, Option.some.injEq] at hd
  rw [← hd.2]

theorem foldl_lastSel {x : Arc → Bool} {v : Cell} :
    ∀ (l : List Arc) (acc : Option Cell),
      (∀ a ∈ l, x a = true → a.1 = v) →
      (acc = some v ∨ ∃ a ∈ l, x a = true) →
      l.foldl (fun acc a => if x a then some a.1 else acc) acc = some v
  | [], acc, _, hacc => by
      rcases hacc with h | ⟨a, ha, -⟩
      · simpa using h
      · exact absurd ha (List.not_mem_nil a)
  | a :: l, acc, hall, hacc => by
      rw [List.foldl_cons]
      by_cases hxa : x a = true
      · refine foldl_lastSel l _ (fun b hb => hall b (List.mem_cons_of_mem a hb)) ?_
        left
        rw [if_pos hxa, hall a (List.mem_cons_self a l) hxa]
      · refine foldl_lastSel l _ (fun b hb => hall b (List.mem_cons_of_mem a hb)) ?_
        rw [if_neg hxa]
        rcases hacc with h | ⟨b, hb, hxb⟩
        · exact Or.inl h
        · rcases List.mem_cons.mp hb with rfl | hb2
          · exact absurd hxb hxa
          · exact Or.inr ⟨b, hb2, hxb⟩

/-- Because the arc list is grouped by origin in node order and the dummy
node is the last node, the linear scan for the last selected arc always
returns the dummy node (which has exactly one selected outgoing arc). -/
theorem lastSelectedOrigin_eq_dummy {Ns : List Cell} {x : Arc → Bool}
    (hdnm : dummy_node ∉ Ns)
    (hdeg : degreeOK (Ns ++ [dummy_node]) (createArcs (Ns ++ [dummy_node])) x) :
    lastSelectedOrigin (createArcs (Ns ++ [dummy_node])) x = some dummy_node := by
  have hdm : dummy_node ∈ Ns ++ [dummy_node] := by simp
  obtain ⟨hsl, hA, hx, hN, hne⟩ := solFun_spec hdeg hdm
  rw [lastSelectedOrigin, createArcs_append_last, List.foldl_append]
  apply foldl_lastSel
  · intro a ha _
    exact mem_block_fst ha
  · right
    rw [createArcs_append_last] at hA hx
    rw [List.mem_append] at hA
    rcases hA with h | h
    · exfalso
      obtain ⟨o, ho, hblk⟩ := List.mem_flatMap.mp h
      have ho2 := mem_block_fst hblk
      dsimp at ho2
      rw [← ho2] at ho
      exact hdnm ho
    · exact ⟨_, h, hx⟩

/-- Main characterization of the iterative `subtour` routine: under the
degree constraints it terminates (with fuel equal to the node count) and
returns exactly the dummy node's cycle, one arc per step of the orbit,
closed by the wrap-around arc. -/
theorem subtourIt_spec (Ns : List Cell) (x : Arc → Bool)
    (hdnm : dummy_node ∉ Ns) (hnd : (Ns ++ [dummy_node]).Nodup)
    (hdeg : degreeOK (Ns ++ [dummy_node]) (createArcs (Ns ++ [dummy_node])) x) :
    ∃ k : Nat, 2 ≤ k ∧ k ≤ (Ns ++ [dummy_node]).length ∧
      (solFun (createArcs (Ns ++ [dummy_node])) x)^[k] dummy_node = dummy_node ∧
      (∀ j, 0 < j → j < k →
        (solFun (createArcs (Ns ++ [dummy_node])) x)^[j] dummy_node ≠ dummy_node) ∧
      subtourIt (createArcs (Ns ++ [dummy_node])) x (Ns ++ [dummy_node]).length =
        some ((List.range k).map (fun i =>
          ((solFun (createArcs (Ns ++ [dummy_node])) x)^[i + 1] dummy_node,
           (solFun (createArcs (Ns ++ [dummy_node])) x)^[i + 1 + 1] dummy_node))) := by
  classical
  have hdm : dummy_node ∈ Ns ++ [dummy_node] := by simp
  obtain ⟨k0, hk0pos, hk0le, hk0⟩ := exists_orbit_return hdeg hdm hnd
  have hex : ∃ k, 0 < k ∧
      (solFun (createArcs (Ns ++ [dummy_node])) x)^[k] dummy_node = dummy_node :=
    ⟨k0, hk0pos, hk0⟩
  have hkspec := Nat.find_spec hex
  have hkmin : ∀ j, 0 < j → j < Nat.find hex →
      (solFun (createArcs (Ns ++ [dummy_node])) x)^[j] dummy_node ≠ dummy_node :=
    fun j hj hjk he => Nat.find_min hex hjk ⟨hj, he⟩
  have hkle : Nat.find hex ≤ (Ns ++ [dummy_node]).length :=
    le_trans (Nat.find_min' hex ⟨hk0pos, hk0⟩) hk0le
  have hFne : solFun (createArcs (Ns ++ [dummy_node])) x dummy_node ≠ dummy_node :=
    (solFun_spec hdeg hdm).2.2.2.2
  have hk1 : Nat.find hex ≠ 1 := by
    intro h1
    have h2 := hkspec.2
    rw [h1, Function.iterate_one] at h2
    exact hFne h2
  have hk2 : 2 ≤ Nat.find hex := by
    have := hkspec.1
    omega
  have hsol : ∀ i : Nat,
      solLookup (createArcs (Ns ++ [dummy_node])) x
        ((solFun (createArcs (Ns ++ [dummy_node])) x)^[i] dummy_node) =
      some ((solFun (createArcs (Ns ++ [dummy_node])) x)^[i + 1] dummy_node) := by
    intro i
    have hmem := iterate_solFun_mem hdeg hdm i
    have h1 := (solFun_spec hdeg hmem).1
    rw [Function.iterate_succ_apply']
    exact h1
  have hwalk := walkLoop_orbit _ _ hsol hkspec.2 hkmin
    (Nat.find hex - 1) 1 (Ns ++ [dummy_node]).length [] (by omega) (by omega)
    (by omega)
  rw [List.nil_append] at hwalk
  have hlform : (List.range (Nat.find hex - 1)).map (fun i =>
        ((solFun (createArcs (Ns ++ [dummy_node])) x)^[1 + i] dummy_node,
         (solFun (createArcs (Ns ++ [dummy_node])) x)^[1 + i + 1] dummy_node)) =
      (List.range (Nat.find hex - 1)).map (fun i =>
        ((solFun (createArcs (Ns ++ [dummy_node])) x)^[i + 1] dummy_node,
         (solFun (createArcs (Ns ++ [dummy_node])) x)^[i + 1 + 1] dummy_node)) := by
    apply List.map_congr_left
    intro i _
    rw [Nat.add_comm 1 i]
  rw [hlform] at hwalk
  have hlne : (List.range (Nat.find hex - 1)).map (fun i =>
      ((solFun (createArcs (Ns ++ [dummy_node])) x)^[i + 1] dummy_node,
       (solFun (createArcs (Ns ++ [dummy_node])) x)^[i + 1 + 1] dummy_node)) ≠ [] := by
    apply List.ne_nil_of_length_pos
    simp only [List.length_map, List.length_range]
    omega
  have hstart : solLookup (createArcs (Ns ++ [dummy_node])) x dummy_node =
      some ((solFun (createArcs (Ns ++ [dummy_node])) x)^[1] dummy_node) := by
    simpa using hsol 0
  have hmain := subtourIt_parts (lastSelectedOrigin_eq_dummy hdnm hdeg)
    hstart hwalk hlne
  refine ⟨Nat.find hex, hk2, hkle, hkspec.2, hkmin, ?_⟩
  rw [hmain]
  have hA1 : ((List.map (fun i =>
        ((solFun (createArcs (Ns ++ [dummy_node])) x)^[i + 1] dummy_node,
         (solFun (createArcs (Ns ++ [dummy_node])) x)^[i + 1 + 1] dummy_node))
        (List.range (Nat.find hex - 1))).getLast hlne).2 =
      (solFun (createArcs (Ns ++ [dummy_node])) x)^[Nat.find hex] dummy_node := by
    rw [map_range_getLast _ (by omega) hlne]
    dsimp only
    have e1 : Nat.find hex - 1 - 1 + 1 + 1 = Nat.find hex := by omega
    rw [e1]
  have hA2 : ((List.map (fun i =>
        ((solFun (createArcs (Ns ++ [dummy_node])) x)^[i + 1] dummy_node,
         (solFun (createArcs (Ns ++ [dummy_node])) x)^[i + 1 + 1] dummy_node))
        (List.range (Nat.find hex - 1))).head hlne).1 =
      (solFun (createArcs (Ns ++ [dummy_node])) x)^[1] dummy_node := by
    rw [map_range_head _ (by omega) hlne]
  have hA3 : (solFun (createArcs (Ns ++ [dummy_node])) x)^[Nat.find hex + 1]
      dummy_node = (solFun (createArcs (Ns ++ [dummy_node])) x)^[1] dummy_node := by
    have e3 : Nat.find hex + 1 = 1 + Nat.find hex := by omega
    rw [e3, Function.iterate_add_apply
      (solFun (createArcs (Ns ++ [dummy_node])) x) 1 (Nat.find hex), hkspec.2]
  have hrange : List.range (Nat.find hex) =
      List.range (Nat.find hex - 1) ++ [Nat.find hex - 1] := by
    have e0 : Nat.find hex = (Nat.find hex - 1) + 1 := by omega
    rw [e0, List.range_succ]
    congr 1 <;> omega
  rw [hA1, hA2, hrange, List.map_append]
  congr 1
  simp only [List.map_cons, List.map_nil]
  have e2 : Nat.find hex - 1 + 1 = Nat.find hex := by omega
  rw [e2, hkspec.2, hA3]

/-! ### Orbit lemmas -/

theorem orbit_inj_on {F : Cell → Cell} (hinj : Function.Injective F) {k : Nat}
    (hmin : ∀ j, 0 < j → j < k → F^[j] dummy_node ≠ dummy_node)
    {i j : Nat} (hik : i < k) (hjk : j < k)
    (he : F^[i] dummy_node = F^[j] dummy_node) : i = j := by
  rcases Nat.lt_trichotomy i j with h | h | h
  · exfalso
    have h2 : dummy_node = F^[j - i] dummy_node := hinj.iterate i (by
      rw [← Function.iterate_add_apply]
      have e : i + (j - i) = j := by omega
      rw [e]
      exact he)
    exact hmin (j - i) (by omega) (by omega) h2.symm
  · exact h
  · exfalso
    have h2 : dummy_node = F^[i - j] dummy_node := hinj.iterate j (by
      rw [← Function.iterate_add_apply]
      have e : j + (i - j) = i := by omega
      rw [e]
      exact he.symm)
    exact hmin (i - j) (by omega) (by omega) h2.symm

theorem orbit_inj_on_shift {F : Cell → Cell} (hinj : Function.Injective F)
    {k : Nat} (hmin : ∀ j, 0 < j → j < k → F^[j] dummy_node ≠ dummy_node)
    {i j : Nat} (hi1 : 1 ≤ i) (hik : i ≤ k) (hj1 : 1 ≤ j) (hjk : j ≤ k)
    (he : F^[i] dummy_node = F^[j] dummy_node) : i = j := by
  rcases Nat.lt_trichotomy i j with h | h | h
  · exfalso
    have h2 : dummy_node = F^[j - i] dummy_node := hinj.iterate i (by
      rw [← Function.iterate_add_apply]
      have e : i + (j - i) = j := by omega
      rw [e]
      exact he)
    exact hmin (j - i) (by omega) (by omega) h2.symm
  · exact h
  · exfalso
    have h2 : dummy_node = F^[i - j] dummy_node := hinj.iterate j (by
      rw [← Function.iterate_add_apply]
      have e : j + (i - j) = i := by omega
      rw [e]
      exact he.symm)
    exact hmin (i - j) (by omega) (by omega) h2.symm

theorem iterate_mul_cycle {F : Cell → Cell} {k : Nat}
    (hk : F^[k] dummy_node = dummy_node) (q : Nat) :
    F^[k * q] dummy_node = dummy_node := by
  induction q with
  | zero => simp
  | succ q ih =>
      have e : k * (q + 1) = k * q + k := by ring
      rw [e, Function.iterate_add_apply, hk, ih]

theorem iterate_mod_cycle {F : Cell → Cell} {k : Nat} (hkpos : 0 < k)
    (hk : F^[k] dummy_node = dummy_node) (i : Nat) :
    F^[i] dummy_node = F^[i % k] dummy_node := by
  conv_lhs => rw [← Nat.mod_add_div i k]
  rw [Function.iterate_add_apply, iterate_mul_cycle hk]

/-- The length of the dummy node's cycle equals the node count exactly when
every node lies on the dummy node's orbit. -/
theorem orbit_spans_iff {N : List Cell} {x : Arc → Bool}
    (hdeg : degreeOK N (createArcs N) x) (hdm : dummy_node ∈ N)
    (hnd : N.Nodup) {k : Nat} (hkpos : 0 < k)
    (hk : (solFun (createArcs N) x)^[k] dummy_node = dummy_node)
    (hmin : ∀ j, 0 < j → j < k →
      (solFun (createArcs N) x)^[j] dummy_node ≠ dummy_node)
    (hkle : k ≤ N.length) :
    k = N.length ↔
      ∀ v ∈ N, ∃ i, (solFun (createArcs N) x)^[i] dummy_node = v := by
  have hinj := solFun_injective hdeg
  constructor
  · intro hkn v hv
    have hnodup : ((List.range k).map
        (fun i => (solFun (createArcs N) x)^[i] dummy_node)).Nodup := by
      refine List.Nodup.map_on ?_ (List.nodup_range k)
      intro a ha b hb he
      exact orbit_inj_on hinj hmin (List.mem_range.mp ha) (List.mem_range.mp hb) he
    have hsub : ((List.range k).map
        (fun i => (solFun (createArcs N) x)^[i] dummy_node)) ⊆ N := by
      intro w hw
      obtain ⟨i, -, rfl⟩ := List.mem_map.mp hw
      exact iterate_solFun_mem hdeg hdm i
    have hperm := (List.subperm_of_subset hnodup hsub).perm_of_length_le (by
      simp only [List.length_map, List.length_range]
      omega)
    have hvmem := hperm.mem_iff.mpr hv
    obtain ⟨i, -, hi⟩ := List.mem_map.mp hvmem
    exact ⟨i, hi⟩
  · intro hall
    have hsub : N ⊆ (List.range k).map
        (fun i => (solFun (createArcs N) x)^[i] dummy_node) := by
      intro v hv
      obtain ⟨i, hi⟩ := hall v hv
      refine List.mem_map.mpr ⟨i % k, List.mem_range.mpr (Nat.mod_lt i hkpos), ?_⟩
      rw [← iterate_mod_cycle hkpos hk i, hi]
    have hle := (List.subperm_of_subset hnd hsub).length_le
    simp only [List.length_map, List.length_range] at hle
    omega

/-! ### Further structural helpers -/

theorem flatMap_arc_nodup {N2 : List Cell} (h2 : N2.Nodup) :
    ∀ N1 : List Cell, N1.Nodup →
      (N1.flatMap (fun o => N2.filterMap (fun d =>
        if arcCond o d then some (o, d) else none))).Nodup := by
  intro N1
  induction N1 with
  | nil => intro; simp
  | cons o l ih =>
      intro hnd
      rw [List.flatMap_cons, List.nodup_append]
      rw [List.nodup_cons] at hnd
      refine ⟨?_, ih hnd.2, ?_⟩
      · refine List.Nodup.filterMap ?_ h2
        intro a a' b hb hb'
        rw [Option.mem_def, Option.ite_none_right_eq_some, Option.some.injEq] at hb hb'
        have := hb.2.trans hb'.2.symm
        simpa using this
      · intro a ha1 ha2
        have h1 := mem_block_fst ha1
        obtain ⟨o', ho', hblk⟩ := List.mem_flatMap.mp ha2
        have h2' := mem_block_fst hblk
        rw [h1] at h2'
        rw [← h2'] at ho'
        exact hnd.1 ho'

theorem createArcs_nodup {N : List Cell} (h : N.Nodup) : (createArcs N).Nodup :=
  flatMap_arc_nodup h N h

theorem degreeConstraintList_length (N : List Cell) (A : List Arc) :
    (degreeConstraintList N A).length = 2 * N.length := by
  induction N with
  | nil => rfl
  | cons v l ih =>
      unfold degreeConstraintList at *
      rw [List.flatMap_cons, List.length_append, ih]
      simp
      omega

theorem degreeConstraintList_mem {N : List Cell} {A : List Arc} {v : Cell}
    (hv : v ∈ N) :
    (ongoingArcs A v, 1) ∈ degreeConstraintList N A ∧
    (incomingArcs A v, 1) ∈ degreeConstraintList N A := by
  constructor <;> exact List.mem_flatMap.mpr ⟨v, hv, by simp⟩

theorem degreeConstraintList_mem_inv {N : List Cell} {A : List Arc}
    {cst : List Arc × Nat} (h : cst ∈ degreeConstraintList N A) :
    ∃ v ∈ N, cst = (ongoingArcs A v, 1) ∨ cst = (incomingArcs A v, 1) := by
  obtain ⟨v, hv, hc⟩ := List.mem_flatMap.mp h
  simp only [List.mem_cons, List.mem_singleton, List.not_mem_nil, or_false] at hc
  exact ⟨v, hv, hc⟩

/-- The source arc condition agrees with the spec's arc rule on every pair
of cells. -/
theorem arcCond_iff_spec (o d : Cell) :
    arcCond o d = true ↔ specArcRule o d := by
  by_cases ho : o = dummy_node <;> by_cases hd : d = dummy_node
  · subst ho hd
    simp [arcCond, specArcRule, gridAdjacent, dummy_node]
  · subst ho
    simp [arcCond, specArcRule, hd]
  · subst hd
    simp [arcCond, specArcRule, ho]
  · simp [arcCond, specArcRule, gridAdjacent, ho, hd]

theorem gridAdjacent_symm {o d : Cell} (h : gridAdjacent o d) : gridAdjacent d o := by
  unfold gridAdjacent at *
  rcases h with ⟨h1, h2⟩ | ⟨h1, h2⟩
  · left
    exact ⟨h1.symm, by omega⟩
  · right
    exact ⟨h1.symm, by omega⟩

theorem getD_map_range {α : Type} (f : Nat → α) {m i : Nat} (h : i < m)
    (dflt : α) : ((List.range m).map f).getD i dflt = f i := by
  rw [List.getD_eq_getElem?_getD, List.getElem?_map, List.getElem?_range h]
  rfl

theorem pairsPerm_mem (nodes : List Cell) {p q : Nat} (hp : p < nodes.length)
    (hq : q < nodes.length) (hpq : p ≠ q) :
    (nodes.getD p dummy_node, nodes.getD q dummy_node) ∈ pairsPerm nodes := by
  unfold pairsPerm
  refine List.mem_flatMap.mpr ⟨p, List.mem_range.mpr hp, ?_⟩
  refine List.mem_map.mpr ⟨q, List.mem_filter.mpr
    ⟨List.mem_range.mpr hq, by simp [Ne.symm hpq]⟩, rfl⟩

/-- `subtourIt_spec` instantiated at a grid instance. -/
theorem subtourIt_spec_grid (R C : Nat) (H : List Cell) (x : Arc → Bool)
    (hdeg : degreeOK (createNodes R C H) (createArcs (createNodes R C H)) x) :
    ∃ k : Nat, 2 ≤ k ∧ k ≤ (createNodes R C H).length ∧
      (solFun (createArcs (createNodes R C H)) x)^[k] dummy_node = dummy_node ∧
      (∀ j, 0 < j → j < k →
        (solFun (createArcs (createNodes R C H)) x)^[j] dummy_node ≠ dummy_node) ∧
      subtourIt (createArcs (createNodes R C H)) x (createNodes R C H).length =
        some ((List.range k).map (fun i =>
          ((solFun (createArcs (createNodes R C H)) x)^[i + 1] dummy_node,
           (solFun (createArcs (createNodes R C H)) x)^[i + 1 + 1] dummy_node))) := by
  have hnd := createNodes_nodup R C H
  rw [createNodes_eq R C H] at hdeg hnd ⊢
  exact subtourIt_spec _ x dummy_notMem_filtered hnd hdeg

/-! ### `grb.py`'s callback never reaches its cut

In `grb.py`, `subtourelim` passes `selected` — a tuplelist of
`(Node, Node)` object pairs — into `subtour`, which scans the integer
labels `0..n-1`.  An integer never equals a `Node` object, so
`edges.select(current, '*')` never matches: every inner pass records a
single label, the kept shortest cycle is `[0]`, the arc list is `[(0, 0)]`
of length 1, and the guard `n > len(tour) > 1` is unreachable.  The
object/label mismatch is modelled by the hypothesis that no edge origin
equals a label below `n`. -/

theorem selectSuccs_eq_nil {n : Nat} {edges : List (Nat × Nat)}
    (hedges : ∀ e ∈ edges, n ≤ e.1) {c : Nat} (hc : c < n) (unv : List Nat) :
    selectSuccs edges c unv = [] := by
  unfold selectSuccs
  have h1 : edges.filter (fun e => decide (e.1 = c)) = [] := by
    rw [List.filter_eq_nil_iff]
    intro e he
    simp only [decide_eq_true_eq]
    intro h
    have := hedges e he
    omega
  rw [h1]
  rfl

theorem subtourInner_nil (edges : List (Nat × Nat)) (fuel : Nat)
    (unv tc : List Nat) : subtourInner edges fuel [] unv tc = (tc, unv) := by
  cases fuel <;> rfl

theorem subtourInner_head {n : Nat} {edges : List (Nat × Nat)}
    (hedges : ∀ e ∈ edges, n ≤ e.1) {u : Nat} (hu : u < n) (rest : List Nat) :
    subtourInner edges (u :: rest).length (u :: rest) (u :: rest) [] =
      ([u], rest) := by
  show subtourInner edges (rest.length + 1) (u :: rest) (u :: rest) [] = ([u], rest)
  rw [subtourInner]
  rw [List.erase_cons_head, selectSuccs_eq_nil hedges hu, subtourInner_nil]
  rfl

theorem subtourOuter_single {n : Nat} {edges : List (Nat × Nat)}
    (hedges : ∀ e ∈ edges, n ≤ e.1) :
    ∀ (fuel : Nat) (unvisited : List Nat) (z : Nat),
      (∀ v ∈ unvisited, v < n) → unvisited.length ≤ fuel →
      subtourOuter edges fuel unvisited [z] = [z] := by
  intro fuel
  induction fuel with
  | zero => intro unvisited z _ _; rfl
  | succ fuel ih =>
      intro unvisited z hmem hlen
      cases unvisited with
      | nil => rfl
      | cons u rest =>
          rw [subtourOuter]
          rw [subtourInner_head hedges (hmem u (List.mem_cons_self u rest)) rest]
          rw [if_neg (by simp)]
          refine ih rest z (fun v hv => hmem v (List.mem_cons_of_mem u hv)) ?_
          rw [List.length_cons] at hlen
          omega

theorem subtourCb_mismatch {n : Nat} {edges : List (Nat × Nat)}
    (hedges : ∀ e ∈ edges, n ≤ e.1) : subtourCb n edges = [(0, 0)] := by
  cases n with
  | zero => rfl
  | succ m =>
      unfold subtourCb
      rw [List.range_succ_eq_map m, subtourOuter]
      rw [subtourInner_head hedges (by omega) ((List.range m).map Nat.succ)]
      rw [if_pos (by
        simp only [List.length_range, List.length_cons, List.length_nil]
        omega)]
      rw [subtourOuter_single hedges m ((List.range m).map Nat.succ) 0 ?_ ?_]
      · rfl
      · intro v hv
        obtain ⟨i, hi, rfl⟩ := List.mem_map.mp hv
        have := List.mem_range.mp hi
        omega
      · rw [List.length_map, List.length_range]

/-- Under the object/label mismatch of the actual call, `subtourelim`'s cut
branch is unreachable: no constraint is emitted. -/
theorem subtourelimCut_mismatch {n : Nat} {edges : List (Nat × Nat)}
    (hedges : ∀ e ∈ edges, n ≤ e.1) : subtourelimCut n edges = none := by
  unfold subtourelimCut
  rw [subtourCb_mismatch hedges]
  rw [if_neg (by simp)]

/-! ### Claim theorems -/

/-- C5: an arc `(origin, destination)` is created if and only if exactly
one of the pair is the dummy node, or both are real nodes whose cells are
grid-adjacent; consequently each adjacent pair of real nodes yields two
directed arcs and the dummy is connected to and from every real node. -/
theorem claim_C5 (R C : Nat) (H : List Cell) (o d : Cell) :
    ((o, d) ∈ createArcs (createNodes R C H) ↔
      o ∈ createNodes R C H ∧ d ∈ createNodes R C H ∧ specArcRule o d) ∧
    (o ∈ createNodes R C H → d ∈ createNodes R C H → o ≠ dummy_node →
      d ≠ dummy_node → gridAdjacent o d →
      (o, d) ∈ createArcs (createNodes R C H) ∧
      (d, o) ∈ createArcs (createNodes R C H)) ∧
    (o ∈ createNodes R C H → o ≠ dummy_node →
      (dummy_node, o) ∈ createArcs (createNodes R C H) ∧
      (o, dummy_node) ∈ createArcs (createNodes R C H)) := by
  refine ⟨?_, ?_, ?_⟩
  · rw [mem_createArcs]
    dsimp only
    rw [arcCond_iff_spec]
  · intro ho hd hod hdd hadj
    constructor
    · rw [mem_createArcs]
      exact ⟨ho, hd, (arcCond_iff_spec o d).mpr (Or.inr (Or.inr ⟨hod, hdd, hadj⟩))⟩
    · rw [mem_createArcs]
      exact ⟨hd, ho, (arcCond_iff_spec d o).mpr
        (Or.inr (Or.inr ⟨hdd, hod, gridAdjacent_symm hadj⟩))⟩
  · intro ho hod
    constructor
    · rw [mem_createArcs]
      exact ⟨dummy_mem_createNodes R C H, ho,
        (arcCond_iff_spec dummy_node o).mpr (Or.inl ⟨rfl, hod⟩)⟩
    · rw [mem_createArcs]
      exact ⟨ho, dummy_mem_createNodes R C H,
        (arcCond_iff_spec o dummy_node).mpr (Or.inr (Or.inl ⟨rfl, hod⟩))⟩

/-- C7 counterexample: graph construction with an out-of-bounds hole
`(5, 5)` on a 2×2 grid does not fail: it returns the usual node list,
identical to the one produced without the hole. -/
theorem claim_C7_counterexample :
    createNodes 2 2 [(5, 5)] = [(1, 1), (1, 2), (2, 1), (2, 2), (0, 0)] ∧
    createNodes 2 2 [(5, 5)] = createNodes 2 2 [] := by decide

/-- C7 amended: out-of-bounds holes are silently ignored; graph
construction never fails, and removing the out-of-bounds cells from the
hole set leaves the node list unchanged. -/
theorem claim_C7_amended (R C : Nat) (H : List Cell) :
    createNodes R C H = createNodes R C
      (H.filter (fun c => decide (1 ≤ c.1 ∧ c.1 ≤ R ∧ 1 ≤ c.2 ∧ c.2 ≤ C))) := by
  rw [createNodes_eq, createNodes_eq]
  congr 1
  apply List.filter_congr
  intro c hc
  have hb := mem_cellsRowMajor.mp hc
  have hiff : c ∈ H ↔ c ∈ H.filter
      (fun c => decide (1 ≤ c.1 ∧ c.1 ≤ R ∧ 1 ≤ c.2 ∧ c.2 ≤ C)) := by
    rw [List.mem_filter]
    constructor
    · intro h
      exact ⟨h, by simp only [decide_eq_true_eq]; exact hb⟩
    · exact fun h => h.1
  rw [decide_eq_decide]
  exact not_congr hiff

/-- C8: graph construction produces exactly one node per non-hole cell plus
one dummy node, in stable row-major order with the dummy last. -/
theorem claim_C8 (R C : Nat) (H : List Cell) :
    createNodes R C H =
      (cellsRowMajor R C).filter (fun c => decide (¬ c ∈ H)) ++ [dummy_node] ∧
    (createNodes R C H).Nodup ∧
    ∀ c : Cell, c ∈ createNodes R C H ↔
      (1 ≤ c.1 ∧ c.1 ≤ R ∧ 1 ≤ c.2 ∧ c.2 ≤ C ∧ c ∉ H) ∨ c = dummy_node :=
  ⟨createNodes_eq R C H, createNodes_nodup R C H, fun _ => mem_createNodes⟩

/-- C9: one boolean variable per arc (the arc list has no duplicate keys),
and per node exactly two registered constraints — outgoing sum = 1 and
incoming sum = 1 — whose joint satisfaction is exactly the degree
condition. -/
theorem claim_C9 (R C : Nat) (H : List Cell) :
    (createArcs (createNodes R C H)).Nodup ∧
    (degreeConstraintList (createNodes R C H)
      (createArcs (createNodes R C H))).length = 2 * (createNodes R C H).length ∧
    (∀ v ∈ createNodes R C H,
      (ongoingArcs (createArcs (createNodes R C H)) v, 1) ∈
        degreeConstraintList (createNodes R C H) (createArcs (createNodes R C H)) ∧
      (incomingArcs (createArcs (createNodes R C H)) v, 1) ∈
        degreeConstraintList (createNodes R C H) (createArcs (createNodes R C H))) ∧
    (∀ cst ∈ degreeConstraintList (createNodes R C H)
        (createArcs (createNodes R C H)),
      ∃ v ∈ createNodes R C H,
        cst = (ongoingArcs (createArcs (createNodes R C H)) v, 1) ∨
        cst = (incomingArcs (createArcs (createNodes R C H)) v, 1)) ∧
    ∀ x : Arc → Bool,
      (∀ cst ∈ degreeConstraintList (createNodes R C H)
        (createArcs (createNodes R C H)), cst.1.countP x = cst.2) ↔
      degreeOK (createNodes R C H) (createArcs (createNodes R C H)) x := by
  refine ⟨createArcs_nodup (createNodes_nodup R C H),
    degreeConstraintList_length _ _,
    fun v hv => degreeConstraintList_mem hv,
    fun cst hcst => degreeConstraintList_mem_inv hcst,
    fun x => ⟨?_, ?_⟩⟩
  · intro hall v hv
    exact ⟨hall _ (degreeConstraintList_mem hv).1,
      hall _ (degreeConstraintList_mem hv).2⟩
  · intro hdeg cst hcst
    obtain ⟨v, hv, hc | hc⟩ := degreeConstraintList_mem_inv hcst
    · rw [hc]
      exact (hdeg v hv).1
    · rw [hc]
      exact (hdeg v hv).2

/-- C10: for every degree-feasible assignment, the iterative `subtour`
routine terminates and returns the cycle containing the dummy node; the
linear scan for the last selected arc always yields the dummy node as the
traversal start, because arcs are grouped by origin in node order and the
dummy node is the last node. -/
theorem claim_C10 (R C : Nat) (H : List Cell) (x : Arc → Bool)
    (hdeg : degreeOK (createNodes R C H) (createArcs (createNodes R C H)) x) :
    lastSelectedOrigin (createArcs (createNodes R C H)) x = some dummy_node ∧
    ∃ c, subtourIt (createArcs (createNodes R C H)) x
        (createNodes R C H).length = some c ∧
      dummy_node ∈ c.map Prod.fst ∧ dummy_node ∈ c.map Prod.snd := by
  constructor
  · rw [createNodes_eq R C H] at hdeg ⊢
    exact lastSelectedOrigin_eq_dummy dummy_notMem_filtered hdeg
  · obtain ⟨k, hk2, hkle, hk, hmin, hsub⟩ := subtourIt_spec_grid R C H x hdeg
    refine ⟨_, hsub, ?_, ?_⟩
    · refine List.mem_map.mpr ⟨((solFun (createArcs (createNodes R C H)) x)^[k - 1 + 1]
          dummy_node,
        (solFun (createArcs (createNodes R C H)) x)^[k - 1 + 1 + 1] dummy_node),
        List.mem_map.mpr ⟨k - 1, List.mem_range.mpr (by omega), rfl⟩, ?_⟩
      dsimp only
      have e : k - 1 + 1 = k := by omega
      rw [e, hk]
    · refine List.mem_map.mpr ⟨((solFun (createArcs (createNodes R C H)) x)^[k - 2 + 1]
          dummy_node,
        (solFun (createArcs (createNodes R C H)) x)^[k - 2 + 1 + 1] dummy_node),
        List.mem_map.mpr ⟨k - 2, List.mem_range.mpr (by omega), rfl⟩, ?_⟩
      dsimp only
      have e : k - 2 + 1 + 1 = k := by omega
      rw [e, hk]

/-- C10 witness at the 2×2 instance. -/
theorem claim_C10_witness :
    degreeOK (createNodes 2 2 []) (createArcs (createNodes 2 2 [])) x22 ∧
    (lastSelectedOrigin (createArcs (createNodes 2 2 [])) x22 = some dummy_node ∧
     ∃ c, subtourIt (createArcs (createNodes 2 2 [])) x22
         (createNodes 2 2 []).length = some c ∧
       dummy_node ∈ c.map Prod.fst ∧ dummy_node ∈ c.map Prod.snd) :=
  ⟨by decide, claim_C10 2 2 [] x22 (by decide)⟩

/-- C6: no created arc connects a node to itself, and consequently the
cycle returned by the Tour Decomposer always has length at least 2. -/
theorem claim_C6 (R C : Nat) (H : List Cell) (x : Arc → Bool)
    (hdeg : degreeOK (createNodes R C H) (createArcs (createNodes R C H)) x) :
    (∀ a ∈ createArcs (createNodes R C H), a.1 ≠ a.2) ∧
    ∃ c, subtourIt (createArcs (createNodes R C H)) x
        (createNodes R C H).length = some c ∧ 2 ≤ c.length := by
  refine ⟨fun a ha => createArcs_ne_self ha, ?_⟩
  obtain ⟨k, hk2, hkle, hk, hmin, hsub⟩ := subtourIt_spec_grid R C H x hdeg
  refine ⟨_, hsub, ?_⟩
  simp only [List.length_map, List.length_range]
  omega

/-- C6 witness at the 2×2 instance. -/
theorem claim_C6_witness :
    degreeOK (createNodes 2 2 []) (createArcs (createNodes 2 2 [])) x22 ∧
    ((∀ a ∈ createArcs (createNodes 2 2 []), a.1 ≠ a.2) ∧
     ∃ c, subtourIt (createArcs (createNodes 2 2 [])) x22
         (createNodes 2 2 []).length = some c ∧ 2 ≤ c.length) :=
  ⟨by decide, claim_C6 2 2 [] x22 (by decide)⟩

/-- C1 counterexample: on the 2×2 grid, the assignment `x22` is a
functional successor mapping (it satisfies the degree constraints), yet the
`subtour` routine returns only the dummy node's cycle; node `(2, 1)` is in
the node set but appears in no returned cycle, so the returned cycles do
not cover the full node set. -/
theorem claim_C1_counterexample :
    degreeOK N22 A22 x22 ∧
    subtourIt A22 x22 N22.length =
      some [((1, 1), (1, 2)), ((1, 2), (0, 0)), ((0, 0), (1, 1))] ∧
    ((2, 1) : Cell) ∈ N22 ∧
    ∀ a ∈ [(((1, 1) : Cell), ((1, 2) : Cell)), ((1, 2), (0, 0)), ((0, 0), (1, 1))],
      a.1 ≠ ((2, 1) : Cell) ∧ a.2 ≠ ((2, 1) : Cell) := by decide

/-- C1 amended: the Tour Decomposer of the iterative variants returns a
single cycle of the decomposition — the one containing the dummy node —
with each of its nodes appearing exactly once and every arc selected; it
does not return the other cycles of the decomposition. -/
theorem claim_C1_amended (R C : Nat) (H : List Cell) (x : Arc → Bool)
    (hdeg : degreeOK (createNodes R C H) (createArcs (createNodes R C H)) x) :
    ∃ c, subtourIt (createArcs (createNodes R C H)) x
        (createNodes R C H).length = some c ∧
      (c.map Prod.fst).Nodup ∧ dummy_node ∈ c.map Prod.fst ∧
      ∀ a ∈ c, a ∈ createArcs (createNodes R C H) ∧ x a = true := by
  obtain ⟨k, hk2, hkle, hk, hmin, hsub⟩ := subtourIt_spec_grid R C H x hdeg
  refine ⟨_, hsub, ?_, ?_, ?_⟩
  · rw [List.map_map]
    refine List.Nodup.map_on ?_ (List.nodup_range k)
    intro a ha b hb he
    have ha' := List.mem_range.mp ha
    have hb' := List.mem_range.mp hb
    have := orbit_inj_on_shift (solFun_injective hdeg) hmin
      (i := a + 1) (j := b + 1) (by omega) (by omega) (by omega) (by omega) he
    omega
  · refine List.mem_map.mpr ⟨((solFun (createArcs (createNodes R C H)) x)^[k - 1 + 1]
        dummy_node,
      (solFun (createArcs (createNodes R C H)) x)^[k - 1 + 1 + 1] dummy_node),
      List.mem_map.mpr ⟨k - 1, List.mem_range.mpr (by omega), rfl⟩, ?_⟩
    dsimp only
    have e : k - 1 + 1 = k := by omega
    rw [e, hk]
  · intro a ha
    obtain ⟨i, hi, rfl⟩ := List.mem_map.mp ha
    have hv := iterate_solFun_mem hdeg (dummy_mem_createNodes R C H) (i + 1)
    obtain ⟨-, hA, hx, -, -⟩ := solFun_spec hdeg hv
    rw [Function.iterate_succ_apply'
      (solFun (createArcs (createNodes R C H)) x) (i + 1) dummy_node]
    exact ⟨hA, hx⟩

/-- C1 witness (for the amended claim) at the 2×2 instance. -/
theorem claim_C1_witness :
    degreeOK (createNodes 2 2 []) (createArcs (createNodes 2 2 [])) x22 ∧
    (∃ c, subtourIt (createArcs (createNodes 2 2 [])) x22
        (createNodes 2 2 []).length = some c ∧
      (c.map Prod.fst).Nodup ∧ dummy_node ∈ c.map Prod.fst ∧
      ∀ a ∈ c, a ∈ createArcs (createNodes 2 2 []) ∧ x22 a = true) :=
  ⟨by decide, claim_C1_amended 2 2 [] x22 (by decide)⟩

/-- C4: the elimination loop accepts exactly when the cycle returned by
`subtour` has length equal to the node count, which happens exactly when
every node lies on the dummy node's cycle (the decomposition is a single
spanning cycle); otherwise the cycle's length lies strictly between 1 and
the node count, so the loop adds a cut and re-solves. -/
theorem claim_C4 (R C : Nat) (H : List Cell) (x : Arc → Bool)
    (hdeg : degreeOK (createNodes R C H) (createArcs (createNodes R C H)) x) :
    ∃ c, subtourIt (createArcs (createNodes R C H)) x
        (createNodes R C H).length = some c ∧
      1 < c.length ∧ c.length ≤ (createNodes R C H).length ∧
      (c.length = (createNodes R C H).length ↔
        ∀ v ∈ createNodes R C H, ∃ i,
          (solFun (createArcs (createNodes R C H)) x)^[i] dummy_node = v) := by
  obtain ⟨k, hk2, hkle, hk, hmin, hsub⟩ := subtourIt_spec_grid R C H x hdeg
  refine ⟨_, hsub, ?_, ?_, ?_⟩
  · simp only [List.length_map, List.length_range]
    omega
  · simp only [List.length_map, List.length_range]
    omega
  · simp only [List.length_map, List.length_range]
    exact orbit_spans_iff hdeg (dummy_mem_createNodes R C H)
      (createNodes_nodup R C H) (by omega) hk hmin hkle

/-- C4 witness at the 2×2 instance. -/
theorem claim_C4_witness :
    degreeOK (createNodes 2 2 []) (createArcs (createNodes 2 2 [])) x22 ∧
    (∃ c, subtourIt (createArcs (createNodes 2 2 [])) x22
        (createNodes 2 2 []).length = some c ∧
      1 < c.length ∧ c.length ≤ (createNodes 2 2 []).length ∧
      (c.length = (createNodes 2 2 []).length ↔
        ∀ v ∈ createNodes 2 2 [], ∃ i,
          (solFun (createArcs (createNodes 2 2 [])) x22)^[i] dummy_node = v)) :=
  ⟨by decide, claim_C4 2 2 [] x22 (by decide)⟩

/-- C2 counterexample: on the 2×2 grid with the degree-feasible assignment
`x22`, the decomposition contains the subtour `(2,1) ↔ (2,2)` (both its
arcs are selected) which does not contain the dummy node, yet the single
constraint emitted in this iteration is over the dummy node's cycle — the
dummy-free subtour receives no constraint and the cut cycle contains the
dummy node. -/
theorem claim_C2_counterexample :
    degreeOK N22 A22 x22 ∧
    x22 ((2, 1), (2, 2)) = true ∧ x22 ((2, 2), (2, 1)) = true ∧
    cutNodesIter N22 A22 x22 = [[(1, 1), (1, 2), (0, 0)]] ∧
    (∀ S ∈ cutNodesIter N22 A22 x22, dummy_node ∈ S) ∧
    ∀ S ∈ cutNodesIter N22 A22 x22, ((2, 1) : Cell) ∉ S := by decide

/-- C2 amended: each cutting iteration of the iterative variants emits at
most one elimination constraint, over the node set of the single cycle
returned by `subtour` — the cycle containing the dummy node — and emits it
exactly when that cycle is shorter than the node count; subtours not
containing the dummy node receive no constraint in that iteration. -/
theorem claim_C2_amended (R C : Nat) (H : List Cell) (x : Arc → Bool)
    (hdeg : degreeOK (createNodes R C H) (createArcs (createNodes R C H)) x) :
    ∃ c, subtourIt (createArcs (createNodes R C H)) x
        (createNodes R C H).length = some c ∧
      dummy_node ∈ c.map Prod.fst ∧
      cutNodesIter (createNodes R C H) (createArcs (createNodes R C H)) x =
        (if c.length < (createNodes R C H).length then [c.map Prod.fst] else []) ∧
      ∀ S ∈ cutNodesIter (createNodes R C H) (createArcs (createNodes R C H)) x,
        dummy_node ∈ S := by
  obtain ⟨k, hk2, hkle, hk, hmin, hsub⟩ := subtourIt_spec_grid R C H x hdeg
  have hdm : dummy_node ∈ ((List.range k).map (fun i =>
      ((solFun (createArcs (createNodes R C H)) x)^[i + 1] dummy_node,
       (solFun (createArcs (createNodes R C H)) x)^[i + 1 + 1] dummy_node))).map
        Prod.fst := by
    refine List.mem_map.mpr ⟨((solFun (createArcs (createNodes R C H)) x)^[k - 1 + 1]
        dummy_node,
      (solFun (createArcs (createNodes R C H)) x)^[k - 1 + 1 + 1] dummy_node),
      List.mem_map.mpr ⟨k - 1, List.mem_range.mpr (by omega), rfl⟩, ?_⟩
    dsimp only
    have e : k - 1 + 1 = k := by omega
    rw [e, hk]
  have hcut : cutNodesIter (createNodes R C H) (createArcs (createNodes R C H)) x =
      (if ((List.range k).map (fun i =>
          ((solFun (createArcs (createNodes R C H)) x)^[i + 1] dummy_node,
           (solFun (createArcs (createNodes R C H)) x)^[i + 1 + 1] dummy_node))).length <
          (createNodes R C H).length then
        [((List.range k).map (fun i =>
          ((solFun (createArcs (createNodes R C H)) x)^[i + 1] dummy_node,
           (solFun (createArcs (createNodes R C H)) x)^[i + 1 + 1] dummy_node))).map
            Prod.fst]
      else []) := by
    unfold cutNodesIter
    rw [hsub]
    dsimp only
    by_cases h : k < (createNodes R C H).length
    · rw [if_pos (by simp only [List.length_map, List.length_range]; omega),
        if_pos (by simp only [List.length_map, List.length_range]; omega)]
    · rw [if_neg (by simp only [List.length_map, List.length_range]; omega),
        if_neg (by simp only [List.length_map, List.length_range]; omega)]
  refine ⟨_, hsub, hdm, hcut, ?_⟩
  intro S hS
  rw [hcut] at hS
  by_cases h : ((List.range k).map (fun i =>
      ((solFun (createArcs (createNodes R C H)) x)^[i + 1] dummy_node,
       (solFun (createArcs (createNodes R C H)) x)^[i + 1 + 1] dummy_node))).length <
      (createNodes R C H).length
  · rw [if_pos h, List.mem_singleton] at hS
    rw [hS]
    exact hdm
  · rw [if_neg h] at hS
    exact absurd hS (List.not_mem_nil S)

/-- C2 witness (for the amended claim) at the 2×2 instance. -/
theorem claim_C2_witness :
    degreeOK (createNodes 2 2 []) (createArcs (createNodes 2 2 [])) x22 ∧
    (∃ c, subtourIt (createArcs (createNodes 2 2 [])) x22
        (createNodes 2 2 []).length = some c ∧
      dummy_node ∈ c.map Prod.fst ∧
      cutNodesIter (createNodes 2 2 []) (createArcs (createNodes 2 2 [])) x22 =
        (if c.length < (createNodes 2 2 []).length then [c.map Prod.fst] else []) ∧
      ∀ S ∈ cutNodesIter (createNodes 2 2 []) (createArcs (createNodes 2 2 [])) x22,
        dummy_node ∈ S) :=
  ⟨by decide, claim_C2_amended 2 2 [] x22 (by decide)⟩

/-- C3: every elimination constraint the program generates has the claimed
form.  The iterative variants' constraint (added whenever the returned
cycle is shorter than the node count) sums the variable of every arc whose
origin and destination are both drawn from the subtour's node set — in
particular all of the subtour's own arcs appear in the left-hand side —
with right-hand side the subtour's length minus one.  The only other
generator, `grb.py`'s callback, never emits its line-127 constraint at
all: its `subtour` receives `(Node, Node)` tuple keys but scans integer
labels, so no edge ever matches (hypothesis `∀ e ∈ edges, n ≤ e.1`), the
found tour always has length 1, and the cut branch is unreachable. -/
theorem claim_C3 (R C : Nat) (H : List Cell) (x : Arc → Bool)
    (hdeg : degreeOK (createNodes R C H) (createArcs (createNodes R C H)) x) :
    (∃ c, subtourIt (createArcs (createNodes R C H)) x
        (createNodes R C H).length = some c ∧
      (c.length < (createNodes R C H).length →
        cutConstraintIter (createNodes R C H) (createArcs (createNodes R C H)) x =
          some ((pairsPerm (c.map Prod.fst)).filter
            (fun p => decide (p ∈ createArcs (createNodes R C H))), c.length - 1) ∧
        ∀ a ∈ c, a ∈ (pairsPerm (c.map Prod.fst)).filter
          (fun p => decide (p ∈ createArcs (createNodes R C H))))) ∧
    ∀ (n : Nat) (edges : List (Nat × Nat)), (∀ e ∈ edges, n ≤ e.1) →
      subtourelimCut n edges = none := by
  constructor
  · obtain ⟨k, hk2, hkle, hk, hmin, hsub⟩ := subtourIt_spec_grid R C H x hdeg
    refine ⟨_, hsub, fun hlt => ⟨?_, ?_⟩⟩
    · unfold cutConstraintIter
      rw [hsub]
      dsimp only
      rw [if_pos (by
        simp only [List.length_map, List.length_range] at hlt ⊢
        omega)]
    · intro a ha
      obtain ⟨i, hi, rfl⟩ := List.mem_map.mp ha
      have hik : i < k := List.mem_range.mp hi
      have hv := iterate_solFun_mem hdeg (dummy_mem_createNodes R C H) (i + 1)
      obtain ⟨-, hA, hx, -, -⟩ := solFun_spec hdeg hv
      have hAmem : ((solFun (createArcs (createNodes R C H)) x)^[i + 1] dummy_node,
          (solFun (createArcs (createNodes R C H)) x)^[i + 1 + 1] dummy_node) ∈
          createArcs (createNodes R C H) := by
        rw [Function.iterate_succ_apply'
          (solFun (createArcs (createNodes R C H)) x) (i + 1) dummy_node]
        exact hA
      have horig : (((List.range k).map (fun i =>
          ((solFun (createArcs (createNodes R C H)) x)^[i + 1] dummy_node,
           (solFun (createArcs (createNodes R C H)) x)^[i + 1 + 1] dummy_node))).map
            Prod.fst) =
          (List.range k).map (fun i =>
            (solFun (createArcs (createNodes R C H)) x)^[i + 1] dummy_node) := by
        rw [List.map_map]
        rfl
      rw [horig]
      by_cases hik1 : i + 1 < k
      · have hpm := pairsPerm_mem ((List.range k).map (fun i =>
            (solFun (createArcs (createNodes R C H)) x)^[i + 1] dummy_node))
          (p := i) (q := i + 1)
          (by simp only [List.length_map, List.length_range]; omega)
          (by simp only [List.length_map, List.length_range]; omega)
          (by omega)
        rw [getD_map_range _ (by omega) _, getD_map_range _ (by omega) _] at hpm
        exact List.mem_filter.mpr ⟨hpm, decide_eq_true hAmem⟩
      · have hieq : i + 1 = k := by omega
        have he : (solFun (createArcs (createNodes R C H)) x)^[i + 1 + 1] dummy_node =
            (solFun (createArcs (createNodes R C H)) x)^[0 + 1] dummy_node := by
          have e1 : i + 1 + 1 = 1 + k := by omega
          rw [e1, Function.iterate_add_apply
            (solFun (createArcs (createNodes R C H)) x) 1 k, hk]
        rw [he] at hAmem ⊢
        have hpm := pairsPerm_mem ((List.range k).map (fun i =>
            (solFun (createArcs (createNodes R C H)) x)^[i + 1] dummy_node))
          (p := i) (q := 0)
          (by simp only [List.length_map, List.length_range]; omega)
          (by simp only [List.length_map, List.length_range]; omega)
          (by omega)
        rw [getD_map_range _ (by omega) _, getD_map_range _ (by omega) _] at hpm
        exact List.mem_filter.mpr ⟨hpm, decide_eq_true hAmem⟩
  · intro n edges hedges
    exact subtourelimCut_mismatch hedges

/-- C3 witness at the 2×2 instance. -/
theorem claim_C3_witness :
    degreeOK (createNodes 2 2 []) (createArcs (createNodes 2 2 [])) x22 ∧
    ((∃ c, subtourIt (createArcs (createNodes 2 2 [])) x22
        (createNodes 2 2 []).length = some c ∧
      (c.length < (createNodes 2 2 []).length →
        cutConstraintIter (createNodes 2 2 []) (createArcs (createNodes 2 2 [])) x22 =
          some ((pairsPerm (c.map Prod.fst)).filter
            (fun p => decide (p ∈ createArcs (createNodes 2 2 []))), c.length - 1) ∧
        ∀ a ∈ c, a ∈ (pairsPerm (c.map Prod.fst)).filter
          (fun p => decide (p ∈ createArcs (createNodes 2 2 []))))) ∧
     ∀ (n : Nat) (edges : List (Nat × Nat)), (∀ e ∈ edges, n ≤ e.1) →
       subtourelimCut n edges = none) :=
  ⟨by decide, claim_C3 2 2 [] x22 (by decide)⟩

end ContinuousLine
